import Mathlib

/-!
# Verification of the movie-recommendation service

Shallow embedding of the request-handling core of the repository
(`src/api/routes.py`, with the data model produced by
`src/model/train_model.py` and the history layer of
`src/database/history.py`), together with proofs settling the
specification claims about it.

Conventions of the embedding:

* A pandas dataframe row becomes a `Movie` record; the dataframe itself is a
  `List Movie`, and the dataframe's positional index is the list position.
  Nullable / NaN-able columns are `Option` fields (the response-side
  NaN-to-null cleanup of `routes.py` lines 110-112 is thereby implicit).
* Floating-point similarity values are modelled by real numbers; the
  tf-idf matrix is a `List (List ℝ)` aligned row-by-row with the movie list.
* The `rapidfuzz` `fuzz.WRatio` scorer is an explicit parameter
  `scorer : String → String → ℚ` (0-100 scale) of every operation that uses
  it; theorems quantify over it, so they hold for `WRatio` in particular.
* `pandas.Series.str.contains(pat, case=False)` interprets its pattern as a
  regular expression.  The embedding models the fragment of Python regex
  syntax in which `.` is the only metacharacter occurring in the pattern;
  `fragmentOk` delimits that faithful domain.
* Database effects are data: a search request returns its response together
  with the list of `save_search` insert attempts it issued, and the
  enrichment query outcome is an `Except` parameter (error = any psycopg2
  connectivity/query failure caught by `routes.py` lines 116-150).
-/

/-- One row of the `movies` dataframe saved by `train_model.py`
(columns `tconst`, `primaryTitle`, `startYear`, `genres`, `averageRating`,
`numVotes`, `director_names`; the `soup` column only feeds the offline
vectorizer and is not consulted at request time). -/
structure Movie where
  tconst : String
  primaryTitle : String
  startYear : Option Int
  genres : String
  averageRating : Option ℚ
  numVotes : Int
  director_names : Option String
deriving DecidableEq

instance : Inhabited Movie := ⟨⟨"", "", none, "", none, 0, none⟩⟩

/-- Python `str.lower()`: per-character lowercasing (the catalogs and
queries of interest are ASCII). -/
def lowerCI (s : String) : List Char :=
  s.data.map Char.toLower

/-- Boolean-mask row selection `movies[mask]`: the positional indices of
the rows where the mask holds. -/
def filterIdxs (q : Movie → Bool) (movies : List Movie) : List ℕ :=
  (List.range movies.length).filter (fun i => q (movies.getD i default))

/-- `movies[movies["primaryTitle"].str.lower() == title.lower()]`
(`routes.py` lines 38/81): the positional indices of the rows whose primary
title equals the query up to case. -/
def exactIdxs (movies : List Movie) (title : String) : List ℕ :=
  filterIdxs (fun m => lowerCI m.primaryTitle == lowerCI title) movies

/-- Token of the modelled Python-regex fragment: a literal character or the
`.` metacharacter. -/
inductive RTok where
  | lit (c : Char)
  | dot
deriving DecidableEq

/-- Compile a pattern string the way Python `re` reads it, inside the
fragment where `.` is the only metacharacter: `.` matches any character,
every other character matches literally. -/
def compilePat (s : String) : List RTok :=
  s.data.map (fun c => if c = '.' then RTok.dot else RTok.lit c)

/-- Does a single pattern token match a single character, case-insensitively
(`re.IGNORECASE`, from `case=False`)? -/
def tokMatch (t : RTok) (c : Char) : Bool :=
  match t with
  | RTok.dot => true
  | RTok.lit a => a.toLower == c.toLower

/-- Does the pattern match a prefix of the text? -/
def matchHere : List RTok → List Char → Bool
  | [], _ => true
  | _ :: _, [] => false
  | t :: ts, c :: cs => tokMatch t c && matchHere ts cs

/-- `re.search`: does the pattern match at some position of the text? -/
def reSearch (pat : List RTok) : List Char → Bool
  | [] => matchHere pat []
  | c :: cs => matchHere pat (c :: cs) || reSearch pat cs

/-- `movies[movies["primaryTitle"].str.contains(title, case=False, na=False)]`
(`routes.py` lines 41/84): the positional indices of the rows whose primary
title matches the query as a case-insensitive regular expression
(pandas `str.contains` regex semantics, modelled on the `fragmentOk`
domain). -/
def substrIdxs (movies : List Movie) (title : String) : List ℕ :=
  filterIdxs (fun m => reSearch (compilePat title) m.primaryTitle.data) movies

/-- The characters Python `re` treats specially. -/
def isMeta (c : Char) : Bool :=
  c = '.' || c = '^' || c = '$' || c = '*' || c = '+' || c = '?' ||
  c = '\x7b' || c = '\x7d' || c = '[' || c = ']' || c = '\\' ||
  c = '|' || c = '(' || c = ')'

/-- The query lies in the regex fragment modelled by `compilePat`:
`.` is its only metacharacter. -/
def fragmentOk (s : String) : Bool :=
  s.data.all (fun c => !(isMeta c) || c = '.')

/-- The query contains no regex metacharacter at all. -/
def noMeta (s : String) : Bool :=
  s.data.all (fun c => !(isMeta c))

/-- Case-insensitive "the first list is a prefix of the second". -/
def startsWithCI : List Char → List Char → Bool
  | [], _ => true
  | _ :: _, [] => false
  | a :: ps, b :: ts => (a.toLower == b.toLower) && startsWithCI ps ts

/-- Case-insensitive literal containment of the first list in the second. -/
def litContains (p : List Char) : List Char → Bool
  | [] => p.isEmpty
  | c :: ts => startsWithCI p (c :: ts) || litContains p ts

/-- Written after the spec's words for the substring stage:
"case-insensitive substring containment of the query within each entry's
primary title" — literal containment, no regex reading of the query. -/
def specSubstrCI (q t : String) : Bool :=
  litContains q.data t.data

/-- Accumulator loop of `rapidfuzz.process.extractOne`: scan the choices in
order, keep the first choice attaining the running maximum score, ignoring
scores below the cutoff. -/
def extractOneGo (scorer : String → String → ℚ) (query : String)
    (cutoff : ℚ) : List (String × ℕ) → Option (String × ℚ × ℕ) →
    Option (String × ℚ × ℕ)
  | [], best => best
  | (c, i) :: rest, best =>
      match best with
      | none =>
          if cutoff ≤ scorer query c then
            extractOneGo scorer query cutoff rest (some (c, scorer query c, i))
          else
            extractOneGo scorer query cutoff rest none
      | some (bt, bs, bi) =>
          if bs < scorer query c then
            extractOneGo scorer query cutoff rest (some (c, scorer query c, i))
          else
            extractOneGo scorer query cutoff rest (some (bt, bs, bi))

/-- `process.extractOne(title, choices, scorer=..., score_cutoff=cutoff)`:
best-scoring choice with its score and index, or `None` when every score is
below the cutoff. -/
def extractOne (scorer : String → String → ℚ) (query : String)
    (choices : List String) (cutoff : ℚ) : Option (String × ℚ × ℕ) :=
  extractOneGo scorer query cutoff (choices.enum.map Prod.swap) none

/-- `fuzzy_find` (`routes.py` lines 19-25) with its default
`score_cutoff = 50`, over the precomputed title list `_all_titles`. -/
def fuzzyFind (movies : List Movie) (scorer : String → String → ℚ)
    (title : String) : Option String :=
  match extractOne scorer title (movies.map (fun m => m.primaryTitle)) 50 with
  | none => none
  | some (t, _, _) => some t

/-- The shared three-stage resolution prefix of `recommend` and
`search_movie` (`routes.py` lines 35-48 / 79-90): returns the candidate
index list, the `fuzzy_used` flag, and the `matched_title` string.  A fuzzy
result equal to the empty string is falsy in Python (`if fuzzy_match:`), so
it leaves the candidate set empty. -/
def resolveCandidates (movies : List Movie) (scorer : String → String → ℚ)
    (title : String) : List ℕ × Bool × String :=
  let e := exactIdxs movies title
  if e ≠ [] then (e, false, title)
  else
    let s := substrIdxs movies title
    if s ≠ [] then (s, false, title)
    else
      match fuzzyFind movies scorer title with
      | some ft =>
          if ft = "" then ([], false, title)
          else (exactIdxs movies ft, true, ft)
      | none => ([], false, title)

/-- The pandas `sort_values("numVotes", ascending=False)` order on row
indices: descending by vote count. -/
def voteOrder (movies : List Movie) (i j : ℕ) : Prop :=
  (movies.getD j default).numVotes ≤ (movies.getD i default).numVotes

instance (movies : List Movie) : DecidableRel (voteOrder movies) :=
  fun _ _ => Int.decLe _ _

instance (movies : List Movie) : IsTotal ℕ (voteOrder movies) :=
  ⟨fun _ _ => le_total _ _⟩

instance (movies : List Movie) : IsTrans ℕ (voteOrder movies) :=
  ⟨fun _ _ _ h1 h2 => le_trans h2 h1⟩

/-- `matches.sort_values("numVotes", ascending=False)` on a list of row
indices. -/
def sortVotesDesc (movies : List Movie) (idxs : List ℕ) : List ℕ :=
  List.insertionSort (voteOrder movies) idxs

/-- `matches.sort_values("numVotes", ascending=False).index[0]`
(`routes.py` lines 53/99): the original dataframe index of the
highest-vote candidate. -/
def bestMatchIdx (movies : List Movie) (idxs : List ℕ) : ℕ :=
  (sortVotesDesc movies idxs).headD 0

/-- Dot product of two feature rows
(missing trailing entries of a shorter row count as absent terms). -/
def dotL (u v : List ℝ) : ℝ :=
  (List.zipWith (fun a b => a * b) u v).sum

/-- Euclidean norm of a feature row. -/
noncomputable def norm2 (u : List ℝ) : ℝ :=
  Real.sqrt (dotL u u)

/-- `sklearn.metrics.pairwise.cosine_similarity` of two rows: dot product
over the product of norms, and 0 when either row is all-zero. -/
noncomputable def cosineSim (u v : List ℝ) : ℝ :=
  if norm2 u = 0 ∨ norm2 v = 0 then 0 else dotL u v / (norm2 u * norm2 v)

/-- `cosine_similarity(tfidf_matrix[idx], tfidf_matrix).flatten()`
(`routes.py` lines 55-58): the similarity of row `idx` to every row. -/
noncomputable def simScores (M : List (List ℝ)) (idx : ℕ) : List ℝ :=
  M.map (fun row => cosineSim (M.getD idx []) row)

/-- `sim_scores[idx] = -1` (`routes.py` line 60): the self-similarity is
overwritten with the sentinel. -/
noncomputable def sentScores (M : List (List ℝ)) (idx : ℕ) : List ℝ :=
  (simScores M idx).set idx (-1)

/-- Comparison of two row indices by their score in `s`
(ascending, the order `numpy.argsort` sorts by). -/
def scoreLE (s : List ℝ) (i j : ℕ) : Prop :=
  s.getD i 0 ≤ s.getD j 0

noncomputable instance (s : List ℝ) : DecidableRel (scoreLE s) :=
  fun _ _ => Real.decidableLE _ _

instance (s : List ℝ) : IsTotal ℕ (scoreLE s) :=
  ⟨fun _ _ => le_total _ _⟩

instance (s : List ℝ) : IsTrans ℕ (scoreLE s) :=
  ⟨fun _ _ _ h1 h2 => le_trans h1 h2⟩

/-- `sim_scores.argsort()`: the row indices sorted ascending by score. -/
noncomputable def argsort (s : List ℝ) : List ℕ :=
  List.insertionSort (scoreLE s) (List.range s.length)

/-- The Python slice `a[-n:]` for a natural `n`: the whole list when
`n = 0` (since `-0 == 0`), otherwise the last `n` elements (clamped at the
full list). -/
def lastSlice {α : Type} (l : List α) (n : ℕ) : List α :=
  if n = 0 then l else l.drop (l.length - n)

/-- `sim_scores.argsort()[-n:][::-1]` (`routes.py` line 61): the indices of
the top-scored rows, best first. -/
noncomputable def topIndices (s : List ℝ) (n : ℕ) : List ℕ :=
  (lastSlice (argsort s) n).reverse

/-- One entry of the `recommendations` array of the `/recommend` response
(`routes.py` lines 63-67). -/
structure RecRow where
  primaryTitle : String
  startYear : Option Int
  genres : String
  averageRating : Option ℚ
  similarity : ℝ

/-- The `/recommend` response body (`routes.py` lines 69-73). -/
structure RecResponse where
  recommendations : List RecRow
  matched_title : String
  fuzzy_match : Bool

/-- The dataframe index the `/recommend` handler ranks around: the
highest-vote row among the resolved candidates. -/
def recommendIdxOf (movies : List Movie) (scorer : String → String → ℚ)
    (title : String) : ℕ :=
  bestMatchIdx movies (resolveCandidates movies scorer title).1

/-- The row indices selected by `/recommend` (`routes.py` line 61),
for the resolved query entry. -/
noncomputable def recommendTopIndices (movies : List Movie)
    (M : List (List ℝ)) (scorer : String → String → ℚ) (title : String)
    (n : ℕ) : List ℕ :=
  topIndices (sentScores M (recommendIdxOf movies scorer title)) n

/-- One output row of `results` (`routes.py` lines 63-67): the four catalog
columns of row `i` together with its similarity score. -/
noncomputable def recRowOf (movies : List Movie) (s : List ℝ) (i : ℕ) :
    RecRow :=
  let m := movies.getD i default
  { primaryTitle := m.primaryTitle
    startYear := m.startYear
    genres := m.genres
    averageRating := m.averageRating
    similarity := s.getD i 0 }

/-- The `/recommend` handler (`routes.py` lines 33-74): `none` is the
`HTTPException(404)` path, otherwise the response body. -/
noncomputable def recommendOp (movies : List Movie) (M : List (List ℝ))
    (scorer : String → String → ℚ) (title : String) (n : ℕ) :
    Option RecResponse :=
  let r := resolveCandidates movies scorer title
  if r.1 = [] then none
  else
    let idx := bestMatchIdx movies r.1
    let s := sentScores M idx
    some
      { recommendations := (topIndices s n).map (recRowOf movies s)
        matched_title := r.2.2
        fuzzy_match := r.2.1 }

/-- A `save_search(search_query, matched_title)` insert attempt
(`database/history.py` lines 25-34), as data. -/
abbrev HistoryWrite := String × Option String

/-- One cast row of the enrichment query (`routes.py` lines 129-143):
`primary_name`, `category`, `characters`. -/
structure CastEntry where
  name : String
  role : Option String
  characters : Option String
deriving DecidableEq

/-- The rows the enrichment queries return on success: the optional
metadata row (`original_title`, `runtime_minutes`) and the ordered cast
rows. -/
structure EnrichData where
  metaRow : Option (Option String × Option Int)
  cast : List CastEntry
deriving DecidableEq

/-- The `/search` response body (`routes.py` lines 106-156).  Python leaves
the `originalTitle` / `runtimeMinutes` keys absent when the metadata row is
missing and omits `fuzzy_match` / `searched_query` unless fuzzy matching
was used; absent and null are both modelled as `none` / `false`. -/
structure SearchResult where
  tconst : String
  primaryTitle : String
  startYear : Option Int
  genres : String
  averageRating : Option ℚ
  numVotes : Int
  director_names : Option String
  originalTitle : Option String
  runtimeMinutes : Option Int
  cast : List CastEntry
  fuzzy_match : Bool
  searched_query : Option String
deriving DecidableEq

/-- The enrichment block of `/search` (`routes.py` lines 114-150): on a
successful query the metadata row and cast list are copied into the result;
any exception is caught and the three fields are nulled/emptied. -/
def applyEnrich (r : SearchResult) (db : Except Unit EnrichData) :
    SearchResult :=
  match db with
  | Except.error _ =>
      { r with originalTitle := none, runtimeMinutes := none, cast := [] }
  | Except.ok e =>
      let r1 :=
        match e.metaRow with
        | some (ot, rt) => { r with originalTitle := ot, runtimeMinutes := rt }
        | none => r
      { r1 with cast := e.cast }

/-- The ok-branch result body of `/search` (`routes.py` lines 106-156): the
catalog columns of the best match, then the enrichment block, then the
fuzzy-match marker fields when fuzzy matching was used. -/
def searchResultOf (movies : List Movie) (fz : Bool)
    (db : Except Unit EnrichData) (title : String) (bi : ℕ) : SearchResult :=
  let m := movies.getD bi default
  let base : SearchResult :=
    { tconst := m.tconst
      primaryTitle := m.primaryTitle
      startYear := m.startYear
      genres := m.genres
      averageRating := m.averageRating
      numVotes := m.numVotes
      director_names := m.director_names
      originalTitle := none
      runtimeMinutes := none
      cast := []
      fuzzy_match := false
      searched_query := none }
  let enriched := applyEnrich base db
  if fz then
    { enriched with fuzzy_match := true, searched_query := some title }
  else enriched

/-- The `/search` handler (`routes.py` lines 77-156) together with the
history-write attempts it issues.  `Except.error ()` is the
`HTTPException(404)` path; the second component records each `save_search`
call (whether or not the insert itself succeeds — failures are swallowed by
`routes.py` lines 93-96 / 101-104 without changing control flow). -/
def searchEndpoint (movies : List Movie) (scorer : String → String → ℚ)
    (db : Except Unit EnrichData) (title : String) :
    Except Unit SearchResult × List HistoryWrite :=
  let r := resolveCandidates movies scorer title
  if r.1 = [] then (Except.error (), [(title, none)])
  else
    let bi := bestMatchIdx movies r.1
    (Except.ok (searchResultOf movies r.2.1 db title bi),
      [(title, some (movies.getD bi default).primaryTitle)])

/-- Outcome of Python `re.compile` on the query, on the modelled fragment
extended with the raising case: a pattern containing a `[` but no `]` opens
a character set that can never be terminated, so `re.compile` raises
`re.error` (`none` here); otherwise the pattern compiles to `compilePat`
(faithful when `.` is its only metacharacter). -/
def reCompile (s : String) : Option (List RTok) :=
  if s.data.any (fun c => c = '[') && !(s.data.any (fun c => c = ']')) then
    none
  else some (compilePat s)

/-- The substring stage with the raise modelled: `none` is an uncaught
`re.error` escaping `str.contains` (`routes.py` lines 41/84); on a
compiling pattern the stage selects the same rows as `substrIdxs`. -/
def substrIdxsTry (movies : List Movie) (title : String) : Option (List ℕ) :=
  match reCompile title with
  | none => none
  | some _ => some (substrIdxs movies title)

/-- `resolveCandidates` with the substring-stage raise propagated.  The
exact stage short-circuits before `str.contains` runs (`routes.py` lines
40-41), so a non-compiling query only raises when the exact stage is
empty. -/
def resolveCandidatesTry (movies : List Movie)
    (scorer : String → String → ℚ) (title : String) :
    Option (List ℕ × Bool × String) :=
  let e := exactIdxs movies title
  if e ≠ [] then some (e, false, title)
  else
    match substrIdxsTry movies title with
    | none => none
    | some s =>
        if s ≠ [] then some (s, false, title)
        else
          match fuzzyFind movies scorer title with
          | some ft =>
              if ft = "" then some ([], false, title)
              else some (exactIdxs movies ft, true, ft)
          | none => some ([], false, title)

/-- The `/search` handler with the raise propagated: `none` models the
uncaught `re.error` escaping the handler as a 500 — reached before either
`save_search` site (`routes.py` lines 94/102), so no history write
happens. -/
def searchEndpointTry (movies : List Movie) (scorer : String → String → ℚ)
    (db : Except Unit EnrichData) (title : String) :
    Option (Except Unit SearchResult × List HistoryWrite) :=
  match resolveCandidatesTry movies scorer title with
  | none => none
  | some r =>
      if r.1 = [] then some (Except.error (), [(title, none)])
      else
        some
          (Except.ok
              (searchResultOf movies r.2.1 db title (bestMatchIdx movies r.1)),
            [(title,
              some (movies.getD (bestMatchIdx movies r.1)
                default).primaryTitle)])

/-! ## Helper lemmas: row selection and the vote-count tie-break -/

theorem mem_filterIdxs {q : Movie → Bool} {movies : List Movie} {i : ℕ} :
    i ∈ filterIdxs q movies ↔
      i < movies.length ∧ q (movies.getD i default) = true := by
  simp [filterIdxs, List.mem_filter, List.mem_range]

theorem filterIdxs_lt {q : Movie → Bool} {movies : List Movie} {i : ℕ}
    (h : i ∈ filterIdxs q movies) : i < movies.length :=
  (mem_filterIdxs.mp h).1

theorem exactIdxs_ne_nil_of_mem {movies : List Movie} {m : Movie}
    (hm : m ∈ movies) {title : String}
    (ht : lowerCI m.primaryTitle = lowerCI title) :
    exactIdxs movies title ≠ [] := by
  obtain ⟨i, hi, hgm⟩ := List.mem_iff_getElem.mp hm
  have hmem : i ∈ exactIdxs movies title := by
    refine mem_filterIdxs.mpr ⟨hi, ?_⟩
    rw [List.getD_eq_getElem movies default hi, hgm, ht]
    exact beq_self_eq_true _
  intro hnil
  rw [hnil] at hmem
  exact absurd hmem (List.not_mem_nil i)

theorem resolveCandidates_exact {movies : List Movie}
    {scorer : String → String → ℚ} {title : String}
    (h : exactIdxs movies title ≠ []) :
    resolveCandidates movies scorer title =
      (exactIdxs movies title, false, title) := by
  simp [resolveCandidates, h]

theorem resolveCandidates_substr {movies : List Movie}
    {scorer : String → String → ℚ} {title : String}
    (he : exactIdxs movies title = [])
    (hs : substrIdxs movies title ≠ []) :
    resolveCandidates movies scorer title =
      (substrIdxs movies title, false, title) := by
  simp [resolveCandidates, he, hs]

theorem resolveCandidates_fuzzy {movies : List Movie}
    {scorer : String → String → ℚ} {title : String}
    (he : exactIdxs movies title = [])
    (hs : substrIdxs movies title = []) :
    resolveCandidates movies scorer title =
      match fuzzyFind movies scorer title with
      | some ft =>
          if ft = "" then ([], false, title)
          else (exactIdxs movies ft, true, ft)
      | none => ([], false, title) := by
  simp [resolveCandidates, he, hs]

theorem exactIdxs_lt {movies : List Movie} {title : String} {i : ℕ}
    (h : i ∈ exactIdxs movies title) : i < movies.length :=
  filterIdxs_lt h

theorem substrIdxs_lt {movies : List Movie} {title : String} {i : ℕ}
    (h : i ∈ substrIdxs movies title) : i < movies.length :=
  filterIdxs_lt h

theorem resolve_lt {movies : List Movie} {scorer : String → String → ℚ}
    {title : String} :
    ∀ i ∈ (resolveCandidates movies scorer title).1, i < movies.length := by
  intro i hi
  simp only [resolveCandidates] at hi
  split at hi
  · exact exactIdxs_lt hi
  · split at hi
    · exact substrIdxs_lt hi
    · split at hi
      · split at hi
        · simp at hi
        · exact exactIdxs_lt hi
      · simp at hi

theorem sortVotesDesc_ne_nil {movies : List Movie} {idxs : List ℕ}
    (h : idxs ≠ []) : sortVotesDesc movies idxs ≠ [] := by
  intro h0
  apply h
  have hlen := (List.perm_insertionSort (voteOrder movies) idxs).length_eq
  rw [show List.insertionSort (voteOrder movies) idxs =
        sortVotesDesc movies idxs from rfl, h0] at hlen
  exact List.length_eq_zero.mp hlen.symm

theorem bestMatchIdx_mem {movies : List Movie} {idxs : List ℕ}
    (h : idxs ≠ []) : bestMatchIdx movies idxs ∈ idxs := by
  have hperm := List.perm_insertionSort (voteOrder movies) idxs
  cases hs : sortVotesDesc movies idxs with
  | nil => exact absurd hs (sortVotesDesc_ne_nil h)
  | cons a l =>
      have hba : bestMatchIdx movies idxs = a := by
        simp [bestMatchIdx, hs]
      rw [hba]
      refine hperm.mem_iff.mp ?_
      rw [show List.insertionSort (voteOrder movies) idxs =
            sortVotesDesc movies idxs from rfl, hs]
      exact List.mem_cons_self a l

theorem bestMatchIdx_votes {movies : List Movie} {idxs : List ℕ}
    (h : idxs ≠ []) {j : ℕ} (hj : j ∈ idxs) :
    (movies.getD j default).numVotes ≤
      (movies.getD (bestMatchIdx movies idxs) default).numVotes := by
  have hsor : List.Sorted (voteOrder movies) (sortVotesDesc movies idxs) :=
    List.sorted_insertionSort (voteOrder movies) idxs
  have hperm := List.perm_insertionSort (voteOrder movies) idxs
  cases hs : sortVotesDesc movies idxs with
  | nil => exact absurd hs (sortVotesDesc_ne_nil h)
  | cons a l =>
      have hba : bestMatchIdx movies idxs = a := by
        simp [bestMatchIdx, hs]
      have hj' : j ∈ a :: l := by
        rw [← hs]
        refine hperm.mem_iff.mpr ?_
        exact hj
      rw [hba]
      rcases List.mem_cons.mp hj' with rfl | hjl
      · exact le_refl _
      · rw [hs] at hsor
        exact List.rel_of_sorted_cons hsor j hjl

/-! ## Helper lemmas: similarity scores and the argsort slice -/

theorem dotL_nonneg {u v : List ℝ} (hu : ∀ x ∈ u, 0 ≤ x)
    (hv : ∀ x ∈ v, 0 ≤ x) : 0 ≤ dotL u v := by
  refine List.sum_nonneg ?_
  intro x hx
  induction u generalizing v with
  | nil => simp [List.zipWith] at hx
  | cons a u ih =>
      cases v with
      | nil => simp [List.zipWith] at hx
      | cons b v =>
          simp only [List.zipWith] at hx
          rcases List.mem_cons.mp hx with rfl | hx'
          · exact mul_nonneg (hu a (List.mem_cons_self a u))
              (hv b (List.mem_cons_self b v))
          · exact ih (fun y hy => hu y (List.mem_cons_of_mem a hy))
              (fun y hy => hv y (List.mem_cons_of_mem b hy)) hx'

theorem cosineSim_nonneg {u v : List ℝ} (hu : ∀ x ∈ u, 0 ≤ x)
    (hv : ∀ x ∈ v, 0 ≤ x) : 0 ≤ cosineSim u v := by
  unfold cosineSim
  split
  · exact le_refl 0
  · exact div_nonneg (dotL_nonneg hu hv)
      (mul_nonneg (Real.sqrt_nonneg _) (Real.sqrt_nonneg _))

theorem length_simScores (M : List (List ℝ)) (idx : ℕ) :
    (simScores M idx).length = M.length := by
  simp [simScores]

theorem length_sentScores (M : List (List ℝ)) (idx : ℕ) :
    (sentScores M idx).length = M.length := by
  simp [sentScores, length_simScores]

theorem sentScores_getD_self {M : List (List ℝ)} {idx : ℕ}
    (h : idx < M.length) : (sentScores M idx).getD idx 0 = -1 := by
  rw [sentScores, List.getD_eq_getElem?_getD, List.getElem?_set_self
    (by rw [length_simScores]; exact h)]
  rfl

theorem sentScores_getD_other {M : List (List ℝ)} {idx j : ℕ}
    (hj : j < M.length) (hne : j ≠ idx) :
    (sentScores M idx).getD j 0 =
      cosineSim (M.getD idx []) (M.getD j []) := by
  rw [sentScores, List.getD_eq_getElem?_getD,
    List.getElem?_set_ne (fun h => hne h.symm), simScores,
    List.getElem?_map, List.getElem?_eq_getElem hj]
  simp [List.getElem?_eq_getElem hj]

theorem sentScores_getD_nonneg {M : List (List ℝ)} {idx j : ℕ}
    (hM : ∀ row ∈ M, ∀ x ∈ row, 0 ≤ x)
    (hj : j < M.length) (hne : j ≠ idx) :
    0 ≤ (sentScores M idx).getD j 0 := by
  rw [sentScores_getD_other hj hne]
  have hrow : ∀ (k : ℕ), ∀ x ∈ M.getD k [], 0 ≤ x := by
    intro k x hx
    by_cases hk : k < M.length
    · have hmem : M.getD k [] ∈ M := by
        rw [List.getD_eq_getElem M [] hk]
        exact List.getElem_mem hk
      exact hM _ hmem x hx
    · rw [List.getD_eq_default M [] (le_of_not_lt hk)] at hx
      simp at hx
  exact cosineSim_nonneg (hrow idx) (hrow j)

theorem argsort_perm (s : List ℝ) :
    List.Perm (argsort s) (List.range s.length) :=
  List.perm_insertionSort (scoreLE s) (List.range s.length)

theorem argsort_length (s : List ℝ) : (argsort s).length = s.length := by
  rw [(argsort_perm s).length_eq, List.length_range]

theorem argsort_sorted (s : List ℝ) : List.Sorted (scoreLE s) (argsort s) :=
  List.sorted_insertionSort (scoreLE s) (List.range s.length)

theorem argsort_nodup (s : List ℝ) : (argsort s).Nodup :=
  (argsort_perm s).nodup_iff.mpr (List.nodup_range s.length)

theorem argsort_mem_lt {s : List ℝ} {i : ℕ} (h : i ∈ argsort s) :
    i < s.length :=
  List.mem_range.mp ((argsort_perm s).mem_iff.mp h)

theorem length_lastSlice_of_pos {α : Type} (l : List α) {n : ℕ}
    (hn : 1 ≤ n) : (lastSlice l n).length = min n l.length := by
  rw [lastSlice, if_neg (by omega), List.length_drop]
  omega

theorem length_topIndices {s : List ℝ} {n : ℕ} (hn : 1 ≤ n) :
    (topIndices s n).length = min n s.length := by
  rw [topIndices, List.length_reverse, length_lastSlice_of_pos _ hn,
    argsort_length]

theorem topIndices_zero (s : List ℝ) :
    topIndices s 0 = (argsort s).reverse := by
  rw [topIndices, lastSlice, if_pos rfl]

theorem recommendOp_eq (movies : List Movie) (M : List (List ℝ))
    (scorer : String → String → ℚ) (title : String) (n : ℕ) :
    recommendOp movies M scorer title n =
      if (resolveCandidates movies scorer title).1 = [] then none
      else
        some
          { recommendations :=
              (recommendTopIndices movies M scorer title n).map
                (recRowOf movies
                  (sentScores M (recommendIdxOf movies scorer title)))
            matched_title := (resolveCandidates movies scorer title).2.2
            fuzzy_match := (resolveCandidates movies scorer title).2.1 } :=
  rfl

/-- The sentinel makes the resolved row land strictly outside the `[-n:]`
tail of the ascending argsort whenever `1 ≤ n ≤ catalogSize - 1` and the
matrix entries are nonnegative (as tf-idf entries are). -/
theorem topIndices_not_mem_self {M : List (List ℝ)} {idx n : ℕ}
    (hM : ∀ row ∈ M, ∀ x ∈ row, 0 ≤ x) (hidx : idx < M.length)
    (hn1 : 1 ≤ n) (hn2 : n ≤ M.length - 1) :
    idx ∉ topIndices (sentScores M idx) n := by
  intro hmem
  have hslen : (sentScores M idx).length = M.length := length_sentScores M idx
  rw [topIndices, List.mem_reverse, lastSlice, if_neg (by omega)] at hmem
  set a := argsort (sentScores M idx) with ha
  have halen : a.length = M.length := by
    rw [ha, argsort_length, hslen]
  have hsor : List.Pairwise (scoreLE (sentScores M idx)) a := argsort_sorted _
  have hnod : a.Nodup := argsort_nodup _
  rw [← List.take_append_drop (a.length - n) a] at hsor hnod
  obtain ⟨-, -, hcross⟩ := List.pairwise_append.mp hsor
  obtain ⟨-, -, hdisj⟩ := List.nodup_append.mp hnod
  have hne : a.take (a.length - n) ≠ [] := by
    intro h0
    have h1 := congrArg List.length h0
    rw [List.length_take] at h1
    simp only [List.length_nil] at h1
    omega
  obtain ⟨x0, hx0⟩ := List.exists_mem_of_ne_nil _ hne
  have hcr := hcross x0 hx0 idx hmem
  have hx0idx : x0 ≠ idx := fun h => hdisj hx0 (h ▸ hmem)
  have hx0lt : x0 < M.length := by
    have hx0a : x0 ∈ a := (List.take_sublist _ _).subset hx0
    have := argsort_mem_lt hx0a
    omega
  have hpos : 0 ≤ (sentScores M idx).getD x0 0 :=
    sentScores_getD_nonneg hM hx0lt hx0idx
  have hneg : (sentScores M idx).getD idx 0 = -1 :=
    sentScores_getD_self hidx
  have hcr' : (sentScores M idx).getD x0 0 ≤ (sentScores M idx).getD idx 0 :=
    hcr
  rw [hneg] at hcr'
  linarith

/-- The scores read off along `topIndices` are non-increasing: the argsort
is ascending, the tail slice keeps it ascending, and the final reversal
flips it. -/
theorem topIndices_scores_antitone (s : List ℝ) (n : ℕ) :
    List.Pairwise (fun a b : ℝ => b ≤ a)
      ((topIndices s n).map (fun i => s.getD i 0)) := by
  rw [topIndices]
  have hsor : List.Pairwise (scoreLE s) (argsort s) := argsort_sorted s
  have hsl : List.Pairwise (scoreLE s) (lastSlice (argsort s) n) := by
    rw [lastSlice]
    split
    · exact hsor
    · exact hsor.sublist (List.drop_sublist _ _)
  have hrev := List.pairwise_reverse.mpr hsl
  rw [List.pairwise_map]
  exact hrev

/-! ## Helper lemmas: the fuzzy stage -/

/-- Invariant of the `extractOne` scan for the running best: it is drawn
from `T`, its score is the scorer's value on it, and that score meets the
cutoff. -/
def GoodBest (sc : String → String → ℚ) (q : String) (cut : ℚ)
    (T : List String) (b : Option (String × ℚ × ℕ)) : Prop :=
  ∀ bb, b = some bb → bb.1 ∈ T ∧ bb.2.1 = sc q bb.1 ∧ cut ≤ bb.2.1

theorem goodBest_none {sc : String → String → ℚ} {q : String} {cut : ℚ}
    {T : List String} : GoodBest sc q cut T none :=
  fun _ h => Option.noConfusion h

theorem goodBest_some {sc : String → String → ℚ} {q : String} {cut : ℚ}
    {T : List String} {t : String} {s0 : ℚ} {i : ℕ} (h1 : t ∈ T)
    (h2 : s0 = sc q t) (h3 : cut ≤ s0) :
    GoodBest sc q cut T (some (t, s0, i)) := by
  intro bb hbb
  rw [← Option.some.inj hbb]
  exact ⟨h1, h2, h3⟩

theorem extractOneGo_good {sc : String → String → ℚ} {q : String} {cut : ℚ}
    {T : List String} :
    ∀ {l : List (String × ℕ)} {b : Option (String × ℚ × ℕ)}
      {r : String × ℚ × ℕ},
      (∀ p ∈ l, p.1 ∈ T) → GoodBest sc q cut T b →
      extractOneGo sc q cut l b = some r →
      r.1 ∈ T ∧ r.2.1 = sc q r.1 ∧ cut ≤ r.2.1 := by
  intro l
  induction l with
  | nil =>
      intro b r _ hb hgo
      rw [extractOneGo] at hgo
      exact hb r hgo
  | cons p rest ih =>
      intro b r hl hb hgo
      obtain ⟨c, i⟩ := p
      have hrest : ∀ p ∈ rest, p.1 ∈ T :=
        fun p hp => hl p (List.mem_cons_of_mem _ hp)
      have hcT : c ∈ T := hl (c, i) (List.mem_cons_self _ _)
      cases b with
      | none =>
          rw [extractOneGo] at hgo
          by_cases hc : cut ≤ sc q c
          · rw [if_pos hc] at hgo
            exact ih hrest (goodBest_some hcT rfl hc) hgo
          · rw [if_neg hc] at hgo
            exact ih hrest goodBest_none hgo
      | some bb =>
          obtain ⟨bt, bs, bi⟩ := bb
          obtain ⟨hbT, hbs, hbc⟩ := hb (bt, bs, bi) rfl
          rw [extractOneGo] at hgo
          by_cases hc : bs < sc q c
          · rw [if_pos hc] at hgo
            exact ih hrest
              (goodBest_some hcT rfl (le_of_lt (lt_of_le_of_lt hbc hc))) hgo
          · rw [if_neg hc] at hgo
            exact ih hrest (goodBest_some hbT hbs hbc) hgo

theorem extractOneGo_some_ne_none {sc : String → String → ℚ} {q : String}
    {cut : ℚ} :
    ∀ {l : List (String × ℕ)} {b : String × ℚ × ℕ},
      extractOneGo sc q cut l (some b) ≠ none := by
  intro l
  induction l with
  | nil =>
      intro b h
      rw [extractOneGo] at h
      exact Option.noConfusion h
  | cons p rest ih =>
      intro b h
      obtain ⟨c, i⟩ := p
      obtain ⟨bt, bs, bi⟩ := b
      rw [extractOneGo] at h
      by_cases hc : bs < sc q c
      · rw [if_pos hc] at h
        exact ih h
      · rw [if_neg hc] at h
        exact ih h

theorem extractOneGo_none_iff {sc : String → String → ℚ} {q : String}
    {cut : ℚ} :
    ∀ {l : List (String × ℕ)},
      extractOneGo sc q cut l none = none ↔ ∀ p ∈ l, sc q p.1 < cut := by
  intro l
  induction l with
  | nil => simp [extractOneGo]
  | cons p rest ih =>
      obtain ⟨c, i⟩ := p
      rw [extractOneGo]
      by_cases hc : cut ≤ sc q c
      · rw [if_pos hc]
        constructor
        · intro h
          exact absurd h extractOneGo_some_ne_none
        · intro h
          exact absurd (h (c, i) (List.mem_cons_self _ _)) (not_lt.mpr hc)
      · rw [if_neg hc]
        rw [ih]
        constructor
        · intro h p hp
          rcases List.mem_cons.mp hp with rfl | hp'
          · exact not_le.mp hc
          · exact h p hp'
        · intro h p hp
          exact h p (List.mem_cons_of_mem _ hp)

theorem extractOne_none_iff {sc : String → String → ℚ} {q : String}
    {choices : List String} {cut : ℚ} :
    extractOne sc q choices cut = none ↔ ∀ c ∈ choices, sc q c < cut := by
  rw [extractOne, extractOneGo_none_iff]
  constructor
  · intro h c hc
    rw [← List.enum_map_snd choices] at hc
    obtain ⟨p, hp, hpc⟩ := List.mem_map.mp hc
    have := h p.swap (List.mem_map_of_mem Prod.swap hp)
    rw [Prod.fst_swap, hpc] at this
    exact this
  · intro h p hp
    obtain ⟨p0, hp0, hps⟩ := List.mem_map.mp hp
    rw [← hps, Prod.fst_swap]
    exact h p0.2 (List.snd_mem_of_mem_enum hp0)

theorem extractOne_some {sc : String → String → ℚ} {q : String}
    {choices : List String} {cut : ℚ} {t : String} {s0 : ℚ} {i : ℕ}
    (h : extractOne sc q choices cut = some (t, s0, i)) :
    t ∈ choices ∧ s0 = sc q t ∧ cut ≤ s0 := by
  have hl : ∀ p ∈ choices.enum.map Prod.swap, p.1 ∈ choices := by
    intro p hp
    obtain ⟨p0, hp0, hps⟩ := List.mem_map.mp hp
    rw [← hps, Prod.fst_swap]
    exact List.snd_mem_of_mem_enum hp0
  exact extractOneGo_good hl goodBest_none h

theorem fuzzyFind_none_iff {movies : List Movie}
    {sc : String → String → ℚ} {title : String} :
    fuzzyFind movies sc title = none ↔
      ∀ m ∈ movies, sc title m.primaryTitle < 50 := by
  rw [fuzzyFind]
  constructor
  · intro h m hm
    cases hx : extractOne sc title (movies.map (fun m => m.primaryTitle)) 50
      with
    | none =>
        exact extractOne_none_iff.mp hx m.primaryTitle
          (List.mem_map_of_mem _ hm)
    | some r =>
        rw [hx] at h
        obtain ⟨t, s0, i⟩ := r
        exact Option.noConfusion h
  · intro h
    have : extractOne sc title (movies.map (fun m => m.primaryTitle)) 50 =
        none := by
      rw [extractOne_none_iff]
      intro c hc
      obtain ⟨m, hm, hmc⟩ := List.mem_map.mp hc
      rw [← hmc]
      exact h m hm
    rw [this]

theorem fuzzyFind_some {movies : List Movie} {sc : String → String → ℚ}
    {title ft : String} (h : fuzzyFind movies sc title = some ft) :
    (∃ m ∈ movies, m.primaryTitle = ft) ∧ 50 ≤ sc title ft := by
  rw [fuzzyFind] at h
  cases hx : extractOne sc title (movies.map (fun m => m.primaryTitle)) 50
    with
  | none =>
      rw [hx] at h
      exact Option.noConfusion h
  | some r =>
      obtain ⟨t, s0, i⟩ := r
      rw [hx] at h
      have ht : t = ft := Option.some.inj h
      obtain ⟨hmem, hscore, hcut⟩ := extractOne_some hx
      obtain ⟨m, hm, hmt⟩ := List.mem_map.mp hmem
      subst ht
      exact ⟨⟨m, hm, hmt⟩, by rw [← hscore]; exact hcut⟩

/-! ## Helper lemmas: resolution scenarios and the search endpoint -/

theorem resolveCandidates_fuzzy_none {movies : List Movie}
    {sc : String → String → ℚ} {title : String}
    (he : exactIdxs movies title = [])
    (hs : substrIdxs movies title = [])
    (hf : fuzzyFind movies sc title = none) :
    resolveCandidates movies sc title = ([], false, title) := by
  rw [resolveCandidates_fuzzy he hs, hf]

theorem resolveCandidates_fuzzy_some {movies : List Movie}
    {sc : String → String → ℚ} {title ft : String}
    (he : exactIdxs movies title = [])
    (hs : substrIdxs movies title = [])
    (hf : fuzzyFind movies sc title = some ft) (hft : ft ≠ "") :
    resolveCandidates movies sc title = (exactIdxs movies ft, true, ft) := by
  rw [resolveCandidates_fuzzy he hs, hf]
  simp [hft]

/-- Resolution ends with an empty candidate set exactly when the exact and
substring stages are empty and every catalog title scores below the
50-point fuzzy cutoff (for scorers that, like `WRatio`, give the empty
string a score below the cutoff). -/
theorem resolve_empty_iff {movies : List Movie} {sc : String → String → ℚ}
    {title : String} (hsc : sc title "" < 50) :
    (resolveCandidates movies sc title).1 = [] ↔
      exactIdxs movies title = [] ∧ substrIdxs movies title = [] ∧
        ∀ m ∈ movies, sc title m.primaryTitle < 50 := by
  by_cases he : exactIdxs movies title = []
  · by_cases hs : substrIdxs movies title = []
    · cases hf : fuzzyFind movies sc title with
      | none =>
          rw [resolveCandidates_fuzzy_none he hs hf]
          exact ⟨fun _ => ⟨he, hs, fuzzyFind_none_iff.mp hf⟩, fun _ => rfl⟩
      | some ft =>
          obtain ⟨⟨m, hm, hmt⟩, hcut⟩ := fuzzyFind_some hf
          have hft : ft ≠ "" := by
            intro h0
            rw [h0] at hcut
            linarith
          rw [resolveCandidates_fuzzy_some he hs hf hft]
          have hne : exactIdxs movies ft ≠ [] :=
            exactIdxs_ne_nil_of_mem hm (by rw [hmt])
          constructor
          · intro h
            exact absurd h hne
          · rintro ⟨-, -, hall⟩
            exact absurd hcut (not_le.mpr (hmt ▸ hall m hm))
    · rw [resolveCandidates_substr he hs]
      constructor
      · intro h
        exact absurd h hs
      · rintro ⟨-, hs', -⟩
        exact absurd hs' hs
  · rw [resolveCandidates_exact he]
    constructor
    · intro h
      exact absurd h he
    · rintro ⟨he', -⟩
      exact absurd he' he

theorem searchEndpoint_notFound {movies : List Movie}
    {sc : String → String → ℚ} {db : Except Unit EnrichData}
    {title : String} (h : (resolveCandidates movies sc title).1 = []) :
    searchEndpoint movies sc db title =
      (Except.error (), [(title, none)]) := by
  simp [searchEndpoint, h]

theorem searchEndpoint_found {movies : List Movie}
    {sc : String → String → ℚ} {db : Except Unit EnrichData}
    {title : String} (h : (resolveCandidates movies sc title).1 ≠ []) :
    searchEndpoint movies sc db title =
      (Except.ok
          (searchResultOf movies (resolveCandidates movies sc title).2.1 db
            title (bestMatchIdx movies (resolveCandidates movies sc title).1)),
        [(title,
          some
            (movies.getD
              (bestMatchIdx movies (resolveCandidates movies sc title).1)
              default).primaryTitle)]) := by
  simp [searchEndpoint, h]

/-- Whatever the fuzzy flag and row, a failed enrichment query leaves the
original title and runtime absent and the cast empty. -/
theorem searchResultOf_error_fields (movies : List Movie) (fz : Bool)
    (title : String) (bi : ℕ) :
    (searchResultOf movies fz (Except.error ()) title bi).originalTitle =
        none ∧
      (searchResultOf movies fz (Except.error ()) title bi).runtimeMinutes =
        none ∧
      (searchResultOf movies fz (Except.error ()) title bi).cast = [] := by
  cases fz <;> simp [searchResultOf, applyEnrich]

/-! ## Helper lemmas: the regex fragment versus literal containment -/

theorem compilePat_of_noMeta {q : String} (hq : noMeta q = true) :
    compilePat q = q.data.map RTok.lit := by
  refine List.map_congr_left ?_
  intro c hc
  have hmc : isMeta c = false := by
    have := (List.all_eq_true.mp hq) c hc
    simpa using this
  have hcdot : c ≠ '.' := by
    intro h0
    rw [h0] at hmc
    simp [isMeta] at hmc
  rw [if_neg hcdot]

theorem matchHere_map_lit : ∀ (p t : List Char),
    matchHere (p.map RTok.lit) t = startsWithCI p t := by
  intro p
  induction p with
  | nil =>
      intro t
      cases t <;> rfl
  | cons a ps ih =>
      intro t
      cases t with
      | nil => rfl
      | cons b ts =>
          simp only [List.map, matchHere, startsWithCI, tokMatch]
          rw [ih ts]

theorem startsWithCI_nil (p : List Char) :
    startsWithCI p [] = p.isEmpty := by
  cases p <;> rfl

theorem reSearch_eq_litContains {q : String} (hq : noMeta q = true) :
    ∀ t : List Char, reSearch (compilePat q) t = litContains q.data t := by
  intro t
  induction t with
  | nil =>
      rw [reSearch, litContains, compilePat_of_noMeta hq, matchHere_map_lit,
        startsWithCI_nil]
  | cons c ts ih =>
      rw [reSearch, litContains, compilePat_of_noMeta hq, matchHere_map_lit,
        ← compilePat_of_noMeta hq, ih]

/-! ## Helper lemmas: the raise-aware resolution model -/

theorem reCompile_of_fragmentOk {s : String} (h : fragmentOk s = true) :
    reCompile s = some (compilePat s) := by
  rw [reCompile, if_neg]
  intro hc
  rw [Bool.and_eq_true] at hc
  obtain ⟨c, hcm, hcb⟩ := List.any_eq_true.mp hc.1
  have hcb' : c = '[' := of_decide_eq_true hcb
  subst hcb'
  have hall := (List.all_eq_true.mp h) _ hcm
  exact absurd hall (by decide)

theorem substrIdxsTry_of_fragmentOk {movies : List Movie} {title : String}
    (h : fragmentOk title = true) :
    substrIdxsTry movies title = some (substrIdxs movies title) := by
  rw [substrIdxsTry, reCompile_of_fragmentOk h]

theorem resolveCandidatesTry_of_fragmentOk {movies : List Movie}
    {scorer : String → String → ℚ} {title : String}
    (h : fragmentOk title = true) :
    resolveCandidatesTry movies scorer title =
      some (resolveCandidates movies scorer title) := by
  have hsub : substrIdxsTry movies title = some (substrIdxs movies title) :=
    substrIdxsTry_of_fragmentOk h
  by_cases he : exactIdxs movies title ≠ []
  · rw [resolveCandidates_exact he]
    simp [resolveCandidatesTry, he]
  · have he' : exactIdxs movies title = [] := not_ne_iff.mp he
    by_cases hs : substrIdxs movies title ≠ []
    · rw [resolveCandidates_substr he' hs]
      simp [resolveCandidatesTry, he', hsub, hs]
    · have hs' : substrIdxs movies title = [] := not_ne_iff.mp hs
      rw [resolveCandidates_fuzzy he' hs']
      cases hf : fuzzyFind movies scorer title with
      | none => simp [resolveCandidatesTry, he', hsub, hs', hf]
      | some ft =>
          by_cases hft : ft = ""
          · simp [resolveCandidatesTry, he', hsub, hs', hf, hft]
          · simp [resolveCandidatesTry, he', hsub, hs', hf, hft]

theorem searchEndpointTry_of_fragmentOk {movies : List Movie}
    {scorer : String → String → ℚ} {db : Except Unit EnrichData}
    {title : String} (h : fragmentOk title = true) :
    searchEndpointTry movies scorer db title =
      some (searchEndpoint movies scorer db title) := by
  rw [searchEndpointTry, resolveCandidatesTry_of_fragmentOk h]
  by_cases hc : (resolveCandidates movies scorer title).1 = []
  · rw [searchEndpoint_notFound hc]
    simp [hc]
  · rw [searchEndpoint_found hc]
    simp [hc]

/-! ## Example data for witnesses and counterexamples -/

/-- A one-row catalog entry. -/
def mSolo : Movie := ⟨"t1", "Solo", some 2018, "Action", some 7, 100, some "D"⟩

/-- A catalog entry whose title is the plain string `abc`. -/
def mAbc : Movie := ⟨"t2", "abc", none, "", none, 5, none⟩

/-- A trivial stand-in scorer for concrete runs that never reach the fuzzy
stage (or must fail it). -/
def zeroScorer : String → String → ℚ := fun _ _ => 0

/-! ## Claims -/

/-- C1, counterexample: on a one-movie catalog with `n = 1` the `/recommend`
handler returns 1 recommendation, while the claimed length
`min(N, catalogSize - 1)` is 0 — the claim as stated is false. -/
theorem C1_counterexample :
    (recommendOp [mSolo] [[(1 : ℝ)]] zeroScorer "Solo" 1).map
        (fun r => r.recommendations.length) = some 1 ∧
      min 1 (([mSolo] : List Movie).length - 1) = 0 :=
  ⟨rfl, rfl⟩

/-- C1, amended: for every resolved query and every requested count
`N ≥ 1`, the ranked recommendation list has length exactly
`min(N, catalogSize)` (so it is strictly shorter than `N` only when the
catalog has fewer than `N` entries). -/
theorem C1_amended (movies : List Movie) (M : List (List ℝ))
    (scorer : String → String → ℚ) (title : String) (n : ℕ)
    (resp : RecResponse) (hn : 1 ≤ n) (hM : M.length = movies.length)
    (hsome : recommendOp movies M scorer title n = some resp) :
    resp.recommendations.length = min n movies.length := by
  rw [recommendOp_eq] at hsome
  split at hsome
  · exact Option.noConfusion hsome
  · have h := Option.some.inj hsome
    have hrec : resp.recommendations =
        (recommendTopIndices movies M scorer title n).map
          (recRowOf movies
            (sentScores M (recommendIdxOf movies scorer title))) := by
      rw [← h]
    rw [hrec, List.length_map, recommendTopIndices, length_topIndices hn,
      length_sentScores, hM]

/-- C1 amended, witness at a concrete input. -/
theorem C1_amended_witness :
    (1 ≤ 1 ∧ ([[(1 : ℝ)]] : List (List ℝ)).length =
        ([mSolo] : List Movie).length ∧
      recommendOp [mSolo] [[(1 : ℝ)]] zeroScorer "Solo" 1 =
        some ⟨[⟨"Solo", some 2018, "Action", some 7, -1⟩], "Solo", false⟩) ∧
      (RecResponse.recommendations
          ⟨[⟨"Solo", some 2018, "Action", some 7, -1⟩], "Solo",
            false⟩).length = min 1 ([mSolo] : List Movie).length :=
  ⟨⟨le_refl 1, rfl, rfl⟩,
    C1_amended [mSolo] [[(1 : ℝ)]] zeroScorer "Solo" 1
      ⟨[⟨"Solo", some 2018, "Action", some 7, -1⟩], "Solo", false⟩
      (le_refl 1) rfl rfl⟩

/-- C2, counterexample: on a non-empty (one-movie) catalog with `N = 1`,
the resolved row (index 0) itself appears in the `/recommend` output
indices — the claim that the query entry is never returned is false. -/
theorem C2_counterexample :
    (resolveCandidates [mSolo] zeroScorer "Solo").1 ≠ [] ∧
      recommendIdxOf [mSolo] zeroScorer "Solo" = 0 ∧
      0 ∈ recommendTopIndices [mSolo] [[(1 : ℝ)]] zeroScorer "Solo" 1 := by
  refine ⟨by decide, rfl, ?_⟩
  have h : recommendTopIndices [mSolo] [[(1 : ℝ)]] zeroScorer "Solo" 1 =
      [0] := rfl
  rw [h]
  exact List.mem_singleton_self 0

/-- C2, amended: with an aligned nonnegative matrix, the resolved row never
appears among the returned indices provided `1 ≤ N ≤ catalogSize - 1`; for
`N ≥ catalogSize` the argsort tail keeps every row, including the
sentinel-scored query row itself. -/
theorem C2_amended (movies : List Movie) (M : List (List ℝ))
    (scorer : String → String → ℚ) (title : String) (n : ℕ)
    (hM : M.length = movies.length)
    (hnn : ∀ row ∈ M, ∀ x ∈ row, 0 ≤ x)
    (hres : (resolveCandidates movies scorer title).1 ≠ [])
    (hn1 : 1 ≤ n) (hn2 : n ≤ movies.length - 1) :
    recommendIdxOf movies scorer title ∉
      recommendTopIndices movies M scorer title n := by
  have hidx : recommendIdxOf movies scorer title < movies.length :=
    resolve_lt _ (bestMatchIdx_mem hres)
  exact topIndices_not_mem_self hnn (by omega) hn1 (by omega)

/-- C2 amended, witness at a concrete two-movie input. -/
theorem C2_amended_witness :
    (([[(1 : ℝ), 0], [0, 1]] : List (List ℝ)).length =
        ([mSolo, mAbc] : List Movie).length ∧
      (∀ row ∈ ([[(1 : ℝ), 0], [0, 1]] : List (List ℝ)), ∀ x ∈ row, 0 ≤ x) ∧
      (resolveCandidates [mSolo, mAbc] zeroScorer "Solo").1 ≠ [] ∧
      1 ≤ 1 ∧ 1 ≤ ([mSolo, mAbc] : List Movie).length - 1) ∧
      recommendIdxOf [mSolo, mAbc] zeroScorer "Solo" ∉
        recommendTopIndices [mSolo, mAbc] [[(1 : ℝ), 0], [0, 1]] zeroScorer
          "Solo" 1 := by
  have hnn : ∀ row ∈ ([[(1 : ℝ), 0], [0, 1]] : List (List ℝ)),
      ∀ x ∈ row, 0 ≤ x := by
    intro row hr x hx
    fin_cases hr <;> fin_cases hx <;> norm_num
  exact ⟨⟨rfl, hnn, by decide, le_refl 1, by decide⟩,
    C2_amended [mSolo, mAbc] [[(1 : ℝ), 0], [0, 1]] zeroScorer "Solo" 1
      rfl hnn (by decide) (le_refl 1) (by decide)⟩

/-- C4, counterexample: the query `a.c` is not a literal substring of the
title `abc`, yet the substring stage selects that row (pandas
`str.contains` reads the query as a regular expression, where `.` matches
any character) — the claim as stated is false. -/
theorem C4_counterexample :
    exactIdxs [mAbc] "a.c" = [] ∧ substrIdxs [mAbc] "a.c" = [0] ∧
      specSubstrCI "a.c" "abc" = false ∧ mAbc.primaryTitle = "abc" := by
  refine ⟨by decide, by decide, by decide, rfl⟩

/-- C4, amended: for queries free of regex metacharacters the substring
stage's candidate set is exactly the rows whose primary title contains the
query as a case-insensitive literal substring; and the stage is consulted
only when the exact stage produced no candidate (when the exact stage is
non-empty, resolution returns its candidates unchanged). -/
theorem C4_amended :
    (∀ (movies : List Movie) (title : String), noMeta title = true →
        substrIdxs movies title =
          filterIdxs (fun m => specSubstrCI title m.primaryTitle) movies) ∧
      ∀ (movies : List Movie) (scorer : String → String → ℚ)
        (title : String), exactIdxs movies title ≠ [] →
        (resolveCandidates movies scorer title).1 =
          exactIdxs movies title := by
  constructor
  · intro movies title hq
    rw [substrIdxs, filterIdxs, filterIdxs]
    refine List.filter_congr ?_
    intro i _
    rw [reSearch_eq_litContains hq]
    rfl
  · intro movies scorer title h
    rw [resolveCandidates_exact h]

/-- C4 amended, witness at concrete inputs. -/
theorem C4_amended_witness :
    (noMeta "bc" = true ∧
        substrIdxs [mAbc] "bc" =
          filterIdxs (fun m => specSubstrCI "bc" m.primaryTitle) [mAbc]) ∧
      exactIdxs [mAbc] "abc" ≠ [] ∧
        (resolveCandidates [mAbc] zeroScorer "abc").1 =
          exactIdxs [mAbc] "abc" :=
  ⟨⟨by decide, C4_amended.1 [mAbc] "bc" (by decide)⟩,
    ⟨by decide, C4_amended.2 [mAbc] zeroScorer "abc" (by decide)⟩⟩

/-- C5, counterexample: for the query `[` (an unterminated character set)
against a catalog with no exact match, the conditions the claim equates
with NotFound hold as far as they are evaluable — the exact stage is empty
and every fuzzy score is below 50 — yet the pattern does not compile and
the search operation raises an uncaught `re.error` instead of yielding
NotFound, with no history write; "never an uncaught exception" is false as
stated. -/
theorem C5_counterexample :
    exactIdxs [mAbc] "[" = [] ∧
      (∀ m ∈ ([mAbc] : List Movie), zeroScorer "[" m.primaryTitle < 50) ∧
      reCompile "[" = none ∧
      searchEndpointTry [mAbc] zeroScorer (Except.error ()) "[" = none :=
  ⟨by decide, by decide, rfl, rfl⟩

/-- C5, amended: for every query whose pattern compiles as a regular
expression — in particular every query within the fragment whose only
metacharacter is `.` — the search operation raises no exception, and it
yields the NotFound value exactly when the exact and substring stages are
empty and every catalog title's fuzzy score (for a scorer that, like
`WRatio`, scores the empty string below the cutoff) is below the 50-point
threshold; that outcome triggers the history write with a null matched
title.  (A query whose pattern does not compile, such as `[`, instead
raises an uncaught exception before any candidate or history write is
produced.) -/
theorem C5_amended (movies : List Movie)
    (scorer : String → String → ℚ) (db : Except Unit EnrichData)
    (title : String) (hfrag : fragmentOk title = true)
    (hsc : scorer title "" < 50) :
    searchEndpointTry movies scorer db title =
        some (searchEndpoint movies scorer db title) ∧
      (((searchEndpoint movies scorer db title).1 = Except.error ()) ↔
        (exactIdxs movies title = [] ∧ substrIdxs movies title = [] ∧
          ∀ m ∈ movies, scorer title m.primaryTitle < 50)) ∧
      ((searchEndpoint movies scorer db title).1 = Except.error () →
        (searchEndpoint movies scorer db title).2 = [(title, none)]) := by
  have hmain : ((searchEndpoint movies scorer db title).1 =
      Except.error ()) ↔ (resolveCandidates movies scorer title).1 = [] := by
    by_cases h : (resolveCandidates movies scorer title).1 = []
    · rw [searchEndpoint_notFound h]
      simp [h]
    · rw [searchEndpoint_found h]
      simp [h]
  refine ⟨searchEndpointTry_of_fragmentOk hfrag, ?_, ?_⟩
  · rw [hmain]
    exact resolve_empty_iff hsc
  · intro herr
    rw [searchEndpoint_notFound (hmain.mp herr)]

/-- C5 amended, witness at a concrete input with an unresolvable query. -/
theorem C5_amended_witness :
    (fragmentOk "zzz" = true ∧ zeroScorer "zzz" "" < 50) ∧
      (searchEndpointTry [mAbc] zeroScorer (Except.error ()) "zzz" =
          some (searchEndpoint [mAbc] zeroScorer (Except.error ()) "zzz") ∧
        (((searchEndpoint [mAbc] zeroScorer (Except.error ()) "zzz").1 =
              Except.error ()) ↔
          (exactIdxs [mAbc] "zzz" = [] ∧ substrIdxs [mAbc] "zzz" = [] ∧
            ∀ m ∈ [mAbc], zeroScorer "zzz" m.primaryTitle < 50)) ∧
        ((searchEndpoint [mAbc] zeroScorer (Except.error ()) "zzz").1 =
            Except.error () →
          (searchEndpoint [mAbc] zeroScorer (Except.error ()) "zzz").2 =
            [("zzz", none)])) :=
  ⟨⟨by decide, by decide⟩,
    C5_amended [mAbc] zeroScorer (Except.error ()) "zzz" (by decide)
      (by decide)⟩

/-- A 100-vote entry titled `X`. -/
def mA100 : Movie := ⟨"t1", "X", none, "", none, 100, none⟩

/-- A 5000-vote entry with the same title `X`. -/
def mB5000 : Movie := ⟨"t2", "X", none, "", none, 5000, none⟩

/-- C6: the tie-break among multiple exact/substring candidates selects the
highest vote count: the selected row's votes dominate every candidate's,
and for two identically-titled entries with votes 100 and 5000 (in either
catalog order) resolution selects the 5000-vote entry. -/
theorem C6_voteTieBreak :
    (∀ (movies : List Movie) (idxs : List ℕ), idxs ≠ [] →
        ∀ j ∈ idxs,
          (movies.getD j default).numVotes ≤
            (movies.getD (bestMatchIdx movies idxs) default).numVotes) ∧
      ∀ (a b : Movie) (movies : List Movie)
        (scorer : String → String → ℚ),
        a.primaryTitle = b.primaryTitle → a.numVotes = 100 →
        b.numVotes = 5000 → (movies = [a, b] ∨ movies = [b, a]) →
        movies.getD
            (bestMatchIdx movies
              (resolveCandidates movies scorer a.primaryTitle).1) default =
          b := by
  refine ⟨fun movies idxs h j hj => bestMatchIdx_votes h hj, ?_⟩
  intro a b movies scorer htit hva hvb hmv
  rcases hmv with rfl | rfl
  · have hmem : 1 ∈ exactIdxs [a, b] a.primaryTitle := by
      refine mem_filterIdxs.mpr ⟨by norm_num, ?_⟩
      show (lowerCI b.primaryTitle == lowerCI a.primaryTitle) = true
      rw [← htit]
      exact beq_self_eq_true _
    have hne : exactIdxs [a, b] a.primaryTitle ≠ [] := by
      intro h0
      rw [h0] at hmem
      exact absurd hmem (List.not_mem_nil 1)
    rw [resolveCandidates_exact hne]
    show ([a, b] : List Movie).getD
      (bestMatchIdx [a, b] (exactIdxs [a, b] a.primaryTitle)) default = b
    have hbm := @bestMatchIdx_mem [a, b] _ hne
    have hlt : bestMatchIdx [a, b] (exactIdxs [a, b] a.primaryTitle) < 2 :=
      filterIdxs_lt hbm
    have hv := @bestMatchIdx_votes [a, b] _ hne _ hmem
    set k := bestMatchIdx [a, b] (exactIdxs [a, b] a.primaryTitle) with hk
    interval_cases k
    · have hba : b.numVotes ≤ a.numVotes := hv
      rw [hva, hvb] at hba
      exact absurd hba (by decide)
    · rfl
  · have hmem : 0 ∈ exactIdxs [b, a] a.primaryTitle := by
      refine mem_filterIdxs.mpr ⟨by norm_num, ?_⟩
      show (lowerCI b.primaryTitle == lowerCI a.primaryTitle) = true
      rw [← htit]
      exact beq_self_eq_true _
    have hne : exactIdxs [b, a] a.primaryTitle ≠ [] := by
      intro h0
      rw [h0] at hmem
      exact absurd hmem (List.not_mem_nil 0)
    rw [resolveCandidates_exact hne]
    show ([b, a] : List Movie).getD
      (bestMatchIdx [b, a] (exactIdxs [b, a] a.primaryTitle)) default = b
    have hbm := @bestMatchIdx_mem [b, a] _ hne
    have hlt : bestMatchIdx [b, a] (exactIdxs [b, a] a.primaryTitle) < 2 :=
      filterIdxs_lt hbm
    have hv := @bestMatchIdx_votes [b, a] _ hne _ hmem
    set k := bestMatchIdx [b, a] (exactIdxs [b, a] a.primaryTitle) with hk
    interval_cases k
    · rfl
    · have hba : b.numVotes ≤ a.numVotes := hv
      rw [hva, hvb] at hba
      exact absurd hba (by decide)

/-- C6, witness at a concrete two-entry catalog. -/
theorem C6_witness :
    ((([0, 1] : List ℕ) ≠ [] ∧ 0 ∈ ([0, 1] : List ℕ)) ∧
        (([mA100, mB5000] : List Movie).getD 0 default).numVotes ≤
          (([mA100, mB5000] : List Movie).getD
            (bestMatchIdx [mA100, mB5000] [0, 1]) default).numVotes) ∧
      (mA100.primaryTitle = mB5000.primaryTitle ∧
        ([mA100, mB5000] : List Movie).getD
            (bestMatchIdx [mA100, mB5000]
              (resolveCandidates [mA100, mB5000] zeroScorer
                mA100.primaryTitle).1) default =
          mB5000) :=
  ⟨⟨⟨by decide, by decide⟩,
      C6_voteTieBreak.1 [mA100, mB5000] [0, 1] (by decide) 0 (by decide)⟩,
    ⟨rfl,
      C6_voteTieBreak.2 mA100 mB5000 [mA100, mB5000] zeroScorer rfl rfl rfl
        (Or.inl rfl)⟩⟩

/-- C7: a query equal (case-insensitively) to some catalog title resolves
through the exact stage — the candidate set is the exact stage's, the fuzzy
flag is false, and the substring/fuzzy stages are never consulted. -/
theorem C7_exactStage (movies : List Movie)
    (scorer : String → String → ℚ) (title : String) (m : Movie)
    (hm : m ∈ movies) (ht : lowerCI m.primaryTitle = lowerCI title) :
    resolveCandidates movies scorer title =
        (exactIdxs movies title, false, title) ∧
      exactIdxs movies title ≠ [] := by
  have hne := exactIdxs_ne_nil_of_mem hm ht
  exact ⟨resolveCandidates_exact hne, hne⟩

/-- C7, witness: a case-different query against a one-movie catalog. -/
theorem C7_witness :
    (mSolo ∈ ([mSolo] : List Movie) ∧
        lowerCI mSolo.primaryTitle = lowerCI "SOLO") ∧
      (resolveCandidates [mSolo] zeroScorer "SOLO" =
          (exactIdxs [mSolo] "SOLO", false, "SOLO") ∧
        exactIdxs [mSolo] "SOLO" ≠ []) :=
  ⟨⟨by decide, by decide⟩,
    C7_exactStage [mSolo] zeroScorer "SOLO" mSolo (by decide) (by decide)⟩

/-- C8: when the enrichment query against the relational store fails, the
`/search` operation still succeeds with catalog data only: the response is
ok, with the original title and runtime absent and the cast empty. -/
theorem C8_enrichDegrade (movies : List Movie)
    (scorer : String → String → ℚ) (title : String)
    (hres : (resolveCandidates movies scorer title).1 ≠ []) :
    (searchEndpoint movies scorer (Except.error ()) title).1 =
        Except.ok
          (searchResultOf movies (resolveCandidates movies scorer title).2.1
            (Except.error ()) title
            (bestMatchIdx movies (resolveCandidates movies scorer title).1)) ∧
      ∀ r,
        (searchEndpoint movies scorer (Except.error ()) title).1 =
          Except.ok r →
        r.originalTitle = none ∧ r.runtimeMinutes = none ∧ r.cast = [] := by
  have hfound := @searchEndpoint_found movies scorer (Except.error ()) title hres
  constructor
  · rw [hfound]
  · intro r hr
    rw [hfound] at hr
    have hinj := Except.ok.inj hr
    rw [← hinj]
    exact searchResultOf_error_fields movies _ title _

/-- C8, witness at a concrete resolved query with a failing store. -/
theorem C8_witness :
    ((resolveCandidates [mSolo] zeroScorer "Solo").1 ≠ []) ∧
      ((searchEndpoint [mSolo] zeroScorer (Except.error ()) "Solo").1 =
          Except.ok
            (searchResultOf [mSolo]
              (resolveCandidates [mSolo] zeroScorer "Solo").2.1
              (Except.error ()) "Solo"
              (bestMatchIdx [mSolo]
                (resolveCandidates [mSolo] zeroScorer "Solo").1)) ∧
        ∀ r,
          (searchEndpoint [mSolo] zeroScorer (Except.error ()) "Solo").1 =
            Except.ok r →
          r.originalTitle = none ∧ r.runtimeMinutes = none ∧ r.cast = []) :=
  ⟨by decide, C8_enrichDegrade [mSolo] zeroScorer "Solo" (by decide)⟩

theorem recRowOf_similarity (movies : List Movie) (s : List ℝ) (i : ℕ) :
    (recRowOf movies s i).similarity = s.getD i 0 :=
  rfl

/-- C9: on every successful `/recommend` response the similarity scores
attached to the recommendation sequence are non-increasing from the first
element to the last. -/
theorem C9_scoresAntitone (movies : List Movie) (M : List (List ℝ))
    (scorer : String → String → ℚ) (title : String) (n : ℕ)
    (resp : RecResponse)
    (hsome : recommendOp movies M scorer title n = some resp) :
    List.Pairwise (fun x y : ℝ => y ≤ x)
      (resp.recommendations.map (fun row => row.similarity)) := by
  rw [recommendOp_eq] at hsome
  split at hsome
  · exact Option.noConfusion hsome
  · have h := Option.some.inj hsome
    have hrec : resp.recommendations =
        (recommendTopIndices movies M scorer title n).map
          (recRowOf movies
            (sentScores M (recommendIdxOf movies scorer title))) := by
      rw [← h]
    rw [hrec, List.map_map]
    exact topIndices_scores_antitone
      (sentScores M (recommendIdxOf movies scorer title)) n

/-- C9, witness at a concrete input. -/
theorem C9_witness :
    (recommendOp [mSolo] [[(1 : ℝ)]] zeroScorer "Solo" 2 =
        some ⟨[⟨"Solo", some 2018, "Action", some 7, -1⟩], "Solo", false⟩) ∧
      List.Pairwise (fun x y : ℝ => y ≤ x)
        ((RecResponse.recommendations
            ⟨[⟨"Solo", some 2018, "Action", some 7, -1⟩], "Solo",
              false⟩).map (fun row => row.similarity)) :=
  ⟨rfl,
    C9_scoresAntitone [mSolo] [[(1 : ℝ)]] zeroScorer "Solo" 2
      ⟨[⟨"Solo", some 2018, "Action", some 7, -1⟩], "Solo", false⟩ rfl⟩

/-- C10: a `/recommend` request with `n = 0` ranks the entire catalog: the
Python slice `[-0:]` keeps every row, so the returned index sequence is a
permutation of all row indices, it includes the resolved query row, that
row carries the sentinel score -1, and the response length equals the
catalog size. -/
theorem C10_zeroCount (movies : List Movie) (M : List (List ℝ))
    (scorer : String → String → ℚ) (title : String)
    (hM : M.length = movies.length)
    (hres : (resolveCandidates movies scorer title).1 ≠ []) :
    List.Perm (recommendTopIndices movies M scorer title 0)
        (List.range movies.length) ∧
      recommendIdxOf movies scorer title ∈
        recommendTopIndices movies M scorer title 0 ∧
      (sentScores M (recommendIdxOf movies scorer title)).getD
          (recommendIdxOf movies scorer title) 0 = -1 ∧
      ∀ resp, recommendOp movies M scorer title 0 = some resp →
        resp.recommendations.length = movies.length := by
  have hidx : recommendIdxOf movies scorer title < movies.length :=
    resolve_lt _ (bestMatchIdx_mem hres)
  have hidxM : recommendIdxOf movies scorer title < M.length := by omega
  have hslen :
      (sentScores M (recommendIdxOf movies scorer title)).length =
        M.length := length_sentScores _ _
  have hperm : List.Perm (recommendTopIndices movies M scorer title 0)
      (List.range movies.length) := by
    rw [recommendTopIndices, topIndices_zero]
    refine ((List.reverse_perm _).trans (argsort_perm _)).trans ?_
    rw [hslen, hM]
  refine ⟨hperm, ?_, sentScores_getD_self hidxM, ?_⟩
  · exact hperm.mem_iff.mpr (List.mem_range.mpr hidx)
  · intro resp hsome
    rw [recommendOp_eq] at hsome
    split at hsome
    · exact Option.noConfusion hsome
    · have h := Option.some.inj hsome
      have hrec : resp.recommendations =
          (recommendTopIndices movies M scorer title 0).map
            (recRowOf movies
              (sentScores M (recommendIdxOf movies scorer title))) := by
        rw [← h]
      rw [hrec, List.length_map, hperm.length_eq, List.length_range]

/-- C10, witness at a concrete one-movie catalog. -/
theorem C10_witness :
    (([[(1 : ℝ)]] : List (List ℝ)).length = ([mSolo] : List Movie).length ∧
        (resolveCandidates [mSolo] zeroScorer "Solo").1 ≠ []) ∧
      (List.Perm (recommendTopIndices [mSolo] [[(1 : ℝ)]] zeroScorer "Solo" 0)
          (List.range ([mSolo] : List Movie).length) ∧
        recommendIdxOf [mSolo] zeroScorer "Solo" ∈
          recommendTopIndices [mSolo] [[(1 : ℝ)]] zeroScorer "Solo" 0 ∧
        (sentScores [[(1 : ℝ)]] (recommendIdxOf [mSolo] zeroScorer
            "Solo")).getD (recommendIdxOf [mSolo] zeroScorer "Solo") 0 =
          -1 ∧
        ∀ resp, recommendOp [mSolo] [[(1 : ℝ)]] zeroScorer "Solo" 0 =
            some resp →
          resp.recommendations.length = ([mSolo] : List Movie).length) :=
  ⟨⟨rfl, by decide⟩,
    C10_zeroCount [mSolo] [[(1 : ℝ)]] zeroScorer "Solo" rfl (by decide)⟩
